import Mathlib

/-! Verification of the training-progress callbacks of `skorch/callbacks/training.py`:
`EarlyStopping`, `ParamMapper` (with its pattern matching) and the monitor-lookup
branch of `Checkpoint`.

Modelling conventions:
* Python floats are modelled as rationals (`ℚ`); `np.inf` / `-np.inf` are the extra
  points of `ExtQ`.
* The most recent history record `net.history[-1]` is an association list
  `List (String × ℚ)`; a missing key raises `KeyError`, modelled by the
  `ESOutcome.keyError` / `SkError.keyError` constructors.
* Exceptions are distinct constructors of small inductive types; `KeyboardInterrupt`
  (the stop-training signal) is `ESOutcome.keyboardInterrupt`, a constructor distinct
  from the error constructors, so callers can catch exactly it.
* Mutation of `self` is modelled by explicit state passing: a method returns the new
  state together with the outcome.  When Python raises, the returned state is the
  object state at the moment of the raise (mutations before the raise persist).
-/

/-- Exceptions raised by initialization / training-start code:
`ValueError` (configuration errors) and `SkorchException` (the wrapped
"monitor not found" error of `Checkpoint`). -/
inductive SkError where
  | valueError (msg : String)
  | keyError (key : String)
  | skorchException (msg : String)
deriving DecidableEq

/-- Outcome of one `EarlyStopping.on_epoch_end` call: normal return,
`KeyboardInterrupt` (the distinct, catchable stop-training signal), or
`KeyError` (missing monitor key in the last history record). -/
inductive ESOutcome where
  | ok
  | keyboardInterrupt
  | keyError (key : String)
deriving DecidableEq

/-- The rationals extended with `np.inf` and `-np.inf`, the initial values of
`EarlyStopping.dynamic_threshold_`. -/
inductive ExtQ where
  | negInf
  | fin (q : ℚ)
  | posInf
deriving DecidableEq

/-- Comparison `score < threshold` where `score` is a finite float and `threshold` may be
`±np.inf` (numpy comparison semantics). -/
def scoreLtThr (score : ℚ) : ExtQ → Bool
  | ExtQ.negInf => false
  | ExtQ.fin t => decide (score < t)
  | ExtQ.posInf => true

/-- Comparison `score > threshold` where `threshold` may be `±np.inf`. -/
def scoreGtThr (score : ℚ) : ExtQ → Bool
  | ExtQ.negInf => true
  | ExtQ.fin t => decide (t < score)
  | ExtQ.posInf => false

/-- Constructor arguments of `EarlyStopping` (the fields set in `__init__` that
never change afterwards).  `patience` is a Python `int`, hence `Int`;
`threshold_mode` is kept as the raw string, validated only in `on_train_begin`. -/
structure ESConfig where
  monitor : String
  patience : Int
  threshold : ℚ
  threshold_mode : String
  lower_is_better : Bool
deriving DecidableEq

/-- Mutable state of `EarlyStopping`: `self.misses_` and `self.dynamic_threshold_`. -/
structure ESState where
  misses_ : Nat
  dynamic_threshold_ : ExtQ
deriving DecidableEq

/-- Method `EarlyStopping._is_score_improved`. -/
def is_score_improved (cfg : ESConfig) (st : ESState) (score : ℚ) : Bool :=
  if cfg.lower_is_better then
    scoreLtThr score st.dynamic_threshold_
  else
    scoreGtThr score st.dynamic_threshold_

/-- Method `EarlyStopping._calc_new_threshold`: `delta = threshold * score` in `'rel'`
mode, `delta = threshold` otherwise; the new threshold is `score - delta` when
`lower_is_better` and `score + delta` otherwise. -/
def calc_new_threshold (cfg : ESConfig) (score : ℚ) : ℚ :=
  let abs_threshold_change : ℚ :=
    if cfg.threshold_mode = "rel" then cfg.threshold * score else cfg.threshold
  if cfg.lower_is_better then score - abs_threshold_change
  else score + abs_threshold_change

/-- Method `EarlyStopping.on_train_begin`: raises `ValueError` when `threshold_mode` is
neither `'rel'` nor `'abs'`; otherwise resets `misses_` to `0` and
`dynamic_threshold_` to `np.inf` (lower is better) or `-np.inf`. -/
def on_train_begin (cfg : ESConfig) : Except SkError ESState :=
  if cfg.threshold_mode ≠ "rel" ∧ cfg.threshold_mode ≠ "abs" then
    Except.error (SkError.valueError ("Invalid threshold mode: " ++ cfg.threshold_mode))
  else
    Except.ok { misses_ := 0
                dynamic_threshold_ := if cfg.lower_is_better then ExtQ.posInf else ExtQ.negInf }

/-- The message `EarlyStopping.on_epoch_end` sends to the sink when stopping. -/
def stopMessage (cfg : ESConfig) : String :=
  "Stopping since " ++ cfg.monitor ++ " has not improved in the last " ++
    toString cfg.patience ++ " epochs."

/-- Method `EarlyStopping.on_epoch_end`.  Inputs beyond the state: the most recent
history record `rec` (that is `net.history[-1]`), the host's `net.verbose` flag
(as a Bool) and whether the injected sink is the `print` builtin (the only fact
about the sink that `_sink` inspects).  Returns the state as left behind by the
call (also when it raises), the outcome, and the message passed to the sink
(`none` when the sink was not called).

Source:
```
current_score = net.history[-1, self.monitor]
if not self._is_score_improved(current_score):
    self.misses_ += 1
else:
    self.misses_ = 0
    self.dynamic_threshold_ = self._calc_new_threshold(current_score)
if self.misses_ == self.patience:
    if net.verbose:
        self._sink("Stopping since ...", verbose=net.verbose)
    raise KeyboardInterrupt
```
with `_sink(text, verbose)` calling `self.sink(text)` iff the sink is not
`print` or `verbose` is truthy. -/
def on_epoch_end (cfg : ESConfig) (st : ESState) (rec : List (String × ℚ))
    (verbose : Bool) (sinkIsPrint : Bool) : ESState × ESOutcome × Option String :=
  match List.lookup cfg.monitor rec with
  | none => (st, ESOutcome.keyError cfg.monitor, none)
  | some current_score =>
    let st1 : ESState :=
      if !(is_score_improved cfg st current_score) then
        { st with misses_ := st.misses_ + 1 }
      else
        { misses_ := 0
          dynamic_threshold_ := ExtQ.fin (calc_new_threshold cfg current_score) }
    if (st1.misses_ : Int) = cfg.patience then
      (st1, ESOutcome.keyboardInterrupt,
        if verbose then
          (if (!sinkIsPrint) || verbose then some (stopMessage cfg) else none)
        else none)
    else
      (st1, ESOutcome.ok, none)

/-- Run `EarlyStopping.on_epoch_end` over a list of successive last-history
records, stopping at the first call that raises (as the host training loop
does): returns the final callback state and the outcome of the last call. -/
def runES (cfg : ESConfig) (verbose sinkIsPrint : Bool) :
    ESState → List (List (String × ℚ)) → ESState × ESOutcome
  | st, [] => (st, ESOutcome.ok)
  | st, r :: rs =>
    let res := on_epoch_end cfg st r verbose sinkIsPrint
    match res.2.1 with
    | ESOutcome.ok => runES cfg verbose sinkIsPrint res.1 rs
    | out => (res.1, out)

/-- The monitor lookup of `Checkpoint.on_epoch_end` for a string `monitor`:
`do_checkpoint = net.history[-1, self.monitor]`, re-raising a `KeyError` as a
`SkorchException` ("Monitor value ... cannot be found in history").  The
returned Bool is the truthiness of the numeric value; the save / record side
effects that follow are out of scope (persistence sink). -/
def checkpoint_monitor_flag (monitor : String) (rec : List (String × ℚ)) :
    Except SkError Bool :=
  match List.lookup monitor rec with
  | none =>
      Except.error (SkError.skorchException
        ("Monitor value " ++ monitor ++ " cannot be found in history. " ++
         "Make sure you have validation data if you use " ++
         "validation scores for checkpointing."))
  | some v => Except.ok (v ≠ 0)

/-! Glob matching.  `ParamMapper` matches string patterns with `fnmatch.fnmatch`,
which (on POSIX, where `os.path.normcase` is the identity) translates the
pattern to a regex: `*` matches any char sequence, `?` any single char,
`[seq]` a char class (`[!seq]` negated, `a-b` ranges, a `]` right after the
opening `[`/`[!` is a literal member, an unterminated `[` is a literal `[`),
and the whole name must match the whole pattern.
-/

/-- Membership of a char in the body of a `[seq]` class (`a-b` ranges by code
point, everything else literal; a trailing or leading `-` is literal). -/
def seqHas : List Char → Char → Bool
  | a :: '-' :: b :: rest, c => (a ≤ c && c ≤ b) || seqHas rest c
  | a :: rest, c => (a == c) || seqHas rest c
  | [], _ => false

/-- Scan forward to the closing `]` of a char class; returns the class body and
the remainder of the pattern (whose length is recorded to be smaller, for
termination of `tokenize`).  `none` when there is no closing `]`. -/
def scanSeq : (l : List Char) → Option (List Char × { r : List Char // r.length < l.length })
  | [] => none
  | ']' :: rest => some ([], ⟨rest, by simp only [List.length_cons]; omega⟩)
  | c :: rest =>
    match scanSeq rest with
    | none => none
    | some (co, ⟨r, hr⟩) => some (c :: co, ⟨r, by simp only [List.length_cons]; omega⟩)

/-- Split a char class right after its opening `[`: handles the `[!...]`
negation marker and a literal `]` placed first, then scans for the closing
`]`.  Returns (negated, class body, remainder). -/
def splitSeq : (l : List Char) → Option (Bool × List Char × { r : List Char // r.length < l.length })
  | '!' :: ']' :: t =>
    match scanSeq t with
    | none => none
    | some (co, ⟨r, hr⟩) =>
      some (true, ']' :: co, ⟨r, by simp only [List.length_cons]; omega⟩)
  | '!' :: t =>
    match scanSeq t with
    | none => none
    | some (co, ⟨r, hr⟩) =>
      some (true, co, ⟨r, by simp only [List.length_cons]; omega⟩)
  | ']' :: t =>
    match scanSeq t with
    | none => none
    | some (co, ⟨r, hr⟩) =>
      some (false, ']' :: co, ⟨r, by simp only [List.length_cons]; omega⟩)
  | l =>
    match scanSeq l with
    | none => none
    | some (co, ⟨r, hr⟩) => some (false, co, ⟨r, hr⟩)

/-- Tokens of a translated glob pattern. -/
inductive GlobTok where
  | star
  | anyChar
  | lit (c : Char)
  | seq (negated : Bool) (body : List Char)

/-- Translate a glob pattern into tokens (the analogue of `fnmatch.translate`). -/
def tokenize : List Char → List GlobTok
  | [] => []
  | '*' :: ps => GlobTok.star :: tokenize ps
  | '?' :: ps => GlobTok.anyChar :: tokenize ps
  | '[' :: ps =>
    match splitSeq ps with
    | none => GlobTok.lit '[' :: tokenize ps
    | some (neg, co, ⟨rest, hrest⟩) => GlobTok.seq neg co :: tokenize rest
  | c :: ps => GlobTok.lit c :: tokenize ps
termination_by l => l.length
decreasing_by all_goals simp only [List.length_cons] <;> omega

/-- Match a token list against a name (full-match semantics, `\Z`-anchored). -/
def matchToks : List GlobTok → List Char → Bool
  | [], name => name.isEmpty
  | GlobTok.star :: ts, [] => matchToks ts []
  | GlobTok.star :: ts, c :: cs => matchToks ts (c :: cs) || matchToks (GlobTok.star :: ts) cs
  | GlobTok.anyChar :: ts, _ :: cs => matchToks ts cs
  | GlobTok.anyChar :: _, [] => false
  | GlobTok.lit a :: ts, c :: cs => (a == c) && matchToks ts cs
  | GlobTok.lit _ :: _, [] => false
  | GlobTok.seq neg co :: ts, c :: cs => (seqHas co c != neg) && matchToks ts cs
  | GlobTok.seq _ _ :: _, [] => false
termination_by ts name => (ts.length, name.length)

/-- The stdlib `fnmatch.fnmatch(name, pat)` on a POSIX system. -/
def fnmatch (name pat : String) : Bool :=
  matchToks (tokenize pat.toList) name.toList

/-- A `ParamMapper` pattern: a glob string (matched with `fnmatch`) or a
callable predicate over the parameter name. -/
inductive Pattern where
  | glob (pat : String)
  | callable (f : String → Bool)

/-- The matcher `pattern if callable(pattern) else partial(fnmatch, pat=pattern)` applied
to a parameter name (the per-pattern matcher built in `filter_parameters`). -/
def patternFn : Pattern → String → Bool
  | Pattern.glob pat, name => fnmatch name pat
  | Pattern.callable f, name => f name

/-- The `patterns` constructor argument: a single pattern or a list of
patterns (normalized to a list by `initialize`). -/
inductive PatternsArg where
  | single (p : Pattern)
  | list (ps : List Pattern)

/-- Function `skorch.utils.noop`: does nothing; as an in-place transformation of a
parameter it leaves the value unchanged. -/
def noop {P : Type} : P → P := fun p => p

/-- The host state `ParamMapper` reads: the epoch counter `len(net.history)`
(the history has one record per started epoch, so at `on_epoch_begin` of the
first epoch it is 1) and the module's named parameters.  A parameter value is
a mutable tensor handle; the store of values is a positional list and a handle
is an index into it. -/
structure PMNet (P : Type) where
  historyLen : Nat
  params : List (String × P)

/-- The `at` constructor argument: an epoch number (Python `int`) or a
predicate over the host. -/
inductive AtArg (P : Type) where
  | int (i : Int)
  | callable (f : PMNet P → Bool)

/-- Constructor arguments of `ParamMapper` (field `at` is called `at_` because
`at` is a Lean keyword). -/
structure ParamMapper (P : Type) where
  patterns : PatternsArg
  fn : P → P
  at_ : AtArg P
  schedule : Option (PMNet P → P → P)

/-- A `ParamMapper` after `initialize()`: `patterns` is a list, `at` has been
wrapped into a predicate, `schedule` is always present. -/
structure PMInit (P : Type) where
  patterns : List Pattern
  fn : P → P
  at_ : PMNet P → Bool
  schedule : PMNet P → P → P

/-- Method `ParamMapper.initialize`: installs `_default_schedule` when no schedule was
given (`schedule(net) = fn if at(net) else noop`, reading the wrapped `at`),
normalizes `patterns` to a list, and wraps an integer `at` into
`partial(_epoch_at, epoch=at)` — that is `len(net.history) == at` — raising
`ValueError` when `at <= 0` (epochs are 1-indexed). -/
def initMapper {P : Type} (pm : ParamMapper P) : Except SkError (PMInit P) :=
  let patterns : List Pattern :=
    match pm.patterns with
    | PatternsArg.single p => [p]
    | PatternsArg.list ps => ps
  match pm.at_ with
  | AtArg.int i =>
    if i ≤ 0 then
      Except.error (SkError.valueError
        ("Invalid value for at (at=" ++ toString i ++ "). " ++
         "The first possible epoch number is 1."))
    else
      Except.ok
        { patterns := patterns
          fn := pm.fn
          at_ := fun net => ((net.historyLen : Int) == i)
          schedule :=
            match pm.schedule with
            | some s => s
            | none => fun net => if ((net.historyLen : Int) == i) then pm.fn else noop }
  | AtArg.callable f =>
    Except.ok
      { patterns := patterns
        fn := pm.fn
        at_ := f
        schedule :=
          match pm.schedule with
          | some s => s
          | none => fun net => if f net then pm.fn else noop }

/-- Enumeration `named_parameters`: enumerate `(name, handle)` pairs from the module, the
handle of the `i`-th parameter being its index `i` in the store (`k` is the
index of the first element, `0` at the top-level call). -/
def handlesFrom {P : Type} (k : Nat) : List (String × P) → List (String × Nat)
  | [] => []
  | (n, _) :: rest => (n, k) :: handlesFrom (k + 1) rest

/-- Method `ParamMapper.named_parameters(net)`. -/
def named_parameters {P : Type} (net : PMNet P) : List (String × Nat) :=
  handlesFrom 0 net.params

/-- Method `ParamMapper.filter_parameters`: linearization of
`for pattern_fn, (name, param) in product(pattern_fns, params): if
pattern_fn(name): yield name, param` — the outer loop runs over the patterns,
the inner one over the parameters, so a parameter is yielded once per pattern
its name matches. -/
def filter_parameters {α : Type} : List Pattern → List (String × α) → List (String × α)
  | [], _ => []
  | pat :: pats, params =>
    params.filter (fun np => patternFn pat np.1) ++ filter_parameters pats params

/-- Apply `f` to the element at index `i` of the store (in-place tensor
mutation through a handle). -/
def listModify {α : Type} : List α → Nat → (α → α) → List α
  | [], _, _ => []
  | x :: xs, 0, f => f x :: xs
  | x :: xs, n + 1, f => x :: listModify xs n f

/-- Method `ParamMapper.on_epoch_begin`: enumerate the named parameters, filter them
by the patterns, compute `map_fn = schedule(net)` and apply it in place to
every yielded parameter in order.  Returns the parameter store after the
mutations. -/
def on_epoch_begin {P : Type} (pm : PMInit P) (net : PMNet P) : List (String × P) :=
  let params := named_parameters net
  let selected := filter_parameters pm.patterns params
  let map_fn := pm.schedule net
  selected.foldl (fun store np => listModify store np.2 (fun nv => (nv.1, map_fn nv.2))) net.params

/-! Concrete instances used by witnesses and counterexamples. -/

/-- Configuration `EarlyStopping(monitor='valid_loss', patience=2, threshold=0,
threshold_mode='abs', lower_is_better=True)`. -/
def cfgAbs : ESConfig :=
  { monitor := "valid_loss", patience := 2, threshold := 0
    threshold_mode := "abs", lower_is_better := true }

/-- Configuration `EarlyStopping(monitor='valid_loss', patience=5, threshold=1,
threshold_mode='rel', lower_is_better=True)` — a valid configuration
(`threshold` only has to be non-negative). -/
def cfgRelOne : ESConfig :=
  { monitor := "valid_loss", patience := 5, threshold := 1
    threshold_mode := "rel", lower_is_better := true }

/-- A state reached after `on_train_begin` (zero misses, threshold `np.inf`). -/
def stFresh : ESState := { misses_ := 0, dynamic_threshold_ := ExtQ.posInf }

/-- A state one miss away from `patience = 2`, with a finite threshold. -/
def stOneMiss : ESState := { misses_ := 1, dynamic_threshold_ := ExtQ.fin 0 }

/-- A last-history record scoring 5 on the monitored metric. -/
def recFive : List (String × ℚ) := [("valid_loss", 5)]

/-- The increment function used as a sample `fn` (so repeated application is
observable: applying it `k` times adds `k`). -/
def fnInc : ℚ → ℚ := fun q => q + 1

/-- A callable pattern matching exactly the name `"ab"`. -/
def patA : Pattern := Pattern.callable (fun n => n == "ab")

/-- A different callable pattern that also matches `"ab"` (and `"zz"`). -/
def patB : Pattern := Pattern.callable (fun n => n == "ab" || n == "zz")

/-- Mapper `ParamMapper(patterns=[patA, patB], fn=fnInc, at=1)` — two patterns that
both match the parameter named `"ab"`. -/
def pmDup : ParamMapper ℚ :=
  { patterns := PatternsArg.list [patA, patB], fn := fnInc
    at_ := AtArg.int 1, schedule := none }

/-- Mapper `pmDup` after `initialize()` (see `pmDup_initialized`). -/
def ipmDup : PMInit ℚ :=
  { patterns := [patA, patB], fn := fnInc
    at_ := fun net => ((net.historyLen : Int) == 1)
    schedule := fun net => if ((net.historyLen : Int) == 1) then fnInc else noop }

/-- A host at the beginning of epoch 1 with a single parameter `"ab"` of value 0. -/
def netDup : PMNet ℚ := { historyLen := 1, params := [("ab", 0)] }

/-- A callable pattern matching exactly the name `"w"`. -/
def patW : Pattern := Pattern.callable (fun n => n == "w")

/-- Mapper `ParamMapper(patterns=patW, fn=fnInc, at=1)`. -/
def pmAt1 : ParamMapper ℚ :=
  { patterns := PatternsArg.single patW, fn := fnInc
    at_ := AtArg.int 1, schedule := none }

/-- Mapper `pmAt1` after `initialize()` (see `pmAt1_initialized`). -/
def ipmAt1 : PMInit ℚ :=
  { patterns := [patW], fn := fnInc
    at_ := fun net => ((net.historyLen : Int) == 1)
    schedule := fun net => if ((net.historyLen : Int) == 1) then fnInc else noop }

/-- A host at the beginning of epoch 2 with a single parameter `"w"` of value 0. -/
def netEpoch2 : PMNet ℚ := { historyLen := 2, params := [("w", 0)] }

/-- Mapper `ParamMapper(patterns=patW, fn=fnInc, at=0)` — invalid `at`. -/
def pmAt0 : ParamMapper ℚ :=
  { patterns := PatternsArg.single patW, fn := fnInc
    at_ := AtArg.int 0, schedule := none }

/-- An `EarlyStopping` configuration with a misspelled threshold mode. -/
def cfgBadMode : ESConfig :=
  { monitor := "valid_loss", patience := 5, threshold := 1/10000
    threshold_mode := "relative", lower_is_better := true }

/-! Claim theorems. -/

/-- Provenance of `ipmDup`: it is exactly what `initialize()` makes of `pmDup`. -/
lemma pmDup_initialized : initMapper pmDup = Except.ok ipmDup := rfl

/-- Provenance of `ipmAt1`: it is exactly what `initialize()` makes of `pmAt1`. -/
lemma pmAt1_initialized : initMapper pmAt1 = Except.ok ipmAt1 := rfl

/-- C9: if `EarlyStopping.on_epoch_end` fails because the monitored key is
absent from the last history record, the stopping state is unchanged by the
call: `misses_` and `dynamic_threshold_` keep the values they had before the
call (the lookup happens before any state mutation). -/
theorem missing_monitor_state_unchanged (cfg : ESConfig) (st : ESState)
    (rec : List (String × ℚ)) (v p : Bool)
    (h : List.lookup cfg.monitor rec = none) :
    (on_epoch_end cfg st rec v p).1 = st := by
  simp [on_epoch_end, h]

/-- Witness for `missing_monitor_state_unchanged`: an empty last record leaves
a concrete state untouched. -/
theorem missing_monitor_state_unchanged_witness :
    (on_epoch_end cfgAbs stOneMiss [] true true).1 = stOneMiss :=
  missing_monitor_state_unchanged cfgAbs stOneMiss [] true true rfl

/-- C5: when the monitored metric key is absent from the most recent history
record, `EarlyStopping.on_epoch_end` fails with the distinct `KeyError`
outcome (not `ok`, not the stop signal), and the string-monitor branch of
`Checkpoint.on_epoch_end` fails with the distinct `SkorchException`
"monitor not found" error. -/
theorem monitor_not_found_raises (cfg : ESConfig) (st : ESState)
    (rec : List (String × ℚ)) (v p : Bool) (m : String) (rec2 : List (String × ℚ))
    (h1 : List.lookup cfg.monitor rec = none) (h2 : List.lookup m rec2 = none) :
    (on_epoch_end cfg st rec v p).2.1 = ESOutcome.keyError cfg.monitor ∧
    (∃ msg, checkpoint_monitor_flag m rec2 = Except.error (SkError.skorchException msg)) := by
  constructor
  · simp [on_epoch_end, h1]
  · exact ⟨"Monitor value " ++ m ++ " cannot be found in history. " ++
      "Make sure you have validation data if you use " ++
      "validation scores for checkpointing.",
      by simp [checkpoint_monitor_flag, h2]⟩

/-- Witness for `monitor_not_found_raises`: records without the monitored key. -/
theorem monitor_not_found_raises_witness :
    (on_epoch_end cfgAbs stFresh [("train_loss", 1)] true true).2.1 =
      ESOutcome.keyError "valid_loss" ∧
    (∃ msg, checkpoint_monitor_flag "valid_loss_best" [] =
      Except.error (SkError.skorchException msg)) :=
  monitor_not_found_raises cfgAbs stFresh [("train_loss", 1)] true true
    "valid_loss_best" [] rfl rfl

/-- C6: configuration errors are raised eagerly as `ValueError`:
`EarlyStopping.on_train_begin` fails whenever `threshold_mode` is neither
`'rel'` nor `'abs'`, and `ParamMapper.initialize` fails whenever `at` is an
integer `<= 0` (in particular `at=0` always fails during initialization). -/
theorem config_errors_eager_fatal {P : Type} (cfg : ESConfig) (pm : ParamMapper P)
    (i : Int) (h1 : cfg.threshold_mode ≠ "rel") (h2 : cfg.threshold_mode ≠ "abs")
    (h3 : pm.at_ = AtArg.int i) (h4 : i ≤ 0) :
    (∃ m, on_train_begin cfg = Except.error (SkError.valueError m)) ∧
    (∃ m, initMapper pm = Except.error (SkError.valueError m)) := by
  constructor
  · exact ⟨"Invalid threshold mode: " ++ cfg.threshold_mode,
      by simp [on_train_begin, h1, h2]⟩
  · cases pm with
    | mk pats f a s =>
      cases h3
      exact ⟨"Invalid value for at (at=" ++ toString i ++ "). " ++
        "The first possible epoch number is 1.",
        by simp [initMapper, h4]⟩

/-- Witness for `config_errors_eager_fatal`: threshold mode `"relative"` and
`at=0` both fail. -/
theorem config_errors_eager_fatal_witness :
    (∃ m, on_train_begin cfgBadMode = Except.error (SkError.valueError m)) ∧
    (∃ m, initMapper pmAt0 = Except.error (SkError.valueError m)) :=
  config_errors_eager_fatal cfgBadMode pmAt0 0 (by decide) (by decide) rfl (by decide)

/-- C1: with `patience >= 1` (the contract: patience is a positive integer),
`on_epoch_end` raises the stop signal — the distinct, catchable
`KeyboardInterrupt` outcome — exactly when the epoch was non-improving and the
miss counter thereby just reached exactly `patience`; equivalently, exactly
when the updated counter equals `patience`.  It is never raised when the
updated counter is below `patience` and never skipped when the counter reaches
`patience`. -/
theorem stop_signal_iff_misses_reach_patience (cfg : ESConfig) (st : ESState)
    (rec : List (String × ℚ)) (v p : Bool) (s : ℚ)
    (hpat : 1 ≤ cfg.patience) (hs : List.lookup cfg.monitor rec = some s) :
    ((on_epoch_end cfg st rec v p).2.1 = ESOutcome.keyboardInterrupt ↔
      (is_score_improved cfg st s = false ∧ (st.misses_ : Int) + 1 = cfg.patience)) ∧
    ((on_epoch_end cfg st rec v p).2.1 = ESOutcome.keyboardInterrupt ↔
      ((on_epoch_end cfg st rec v p).1.misses_ : Int) = cfg.patience) := by
  have hcast : (((st.misses_ + 1 : Nat)) : Int) = (st.misses_ : Int) + 1 := by
    push_cast
    ring
  cases hi : is_score_improved cfg st s with
  | false =>
    by_cases hp : (st.misses_ : Int) + 1 = cfg.patience
    · simp [on_epoch_end, hs, hi, hcast, hp]
    · simp [on_epoch_end, hs, hi, hcast, hp]
  | true =>
    have h0 : ¬ ((0 : Int) = cfg.patience) := by omega
    simp [on_epoch_end, hs, hi, h0]

/-- Witness for `stop_signal_iff_misses_reach_patience`: one miss away from
`patience = 2`, a non-improving score of 5 raises the stop signal. -/
theorem stop_signal_iff_misses_reach_patience_witness :
    (on_epoch_end cfgAbs stOneMiss recFive true true).2.1 = ESOutcome.keyboardInterrupt :=
  (stop_signal_iff_misses_reach_patience cfgAbs stOneMiss recFive true true 5
    (by decide) rfl).1.mpr ⟨by decide, by decide⟩

/-- C4: the miss counter of `on_epoch_end` resets to 0 on an improving epoch
and increases by exactly 1 on a non-improving epoch; against a finite dynamic
threshold, improvement is the strict comparison (`score < threshold` when
`lower_is_better`, `score > threshold` otherwise), so a score equal to the
dynamic threshold is never an improvement in either direction. -/
theorem misses_step_and_strict_improvement (cfg : ESConfig) (st : ESState)
    (rec : List (String × ℚ)) (v p : Bool) (s : ℚ)
    (hs : List.lookup cfg.monitor rec = some s) :
    (is_score_improved cfg st s = true → (on_epoch_end cfg st rec v p).1.misses_ = 0) ∧
    (is_score_improved cfg st s = false →
      (on_epoch_end cfg st rec v p).1.misses_ = st.misses_ + 1) ∧
    (∀ q : ℚ, st.dynamic_threshold_ = ExtQ.fin q →
      (is_score_improved cfg st s = true ↔
        (if cfg.lower_is_better then s < q else q < s))) ∧
    (st.dynamic_threshold_ = ExtQ.fin s → is_score_improved cfg st s = false) := by
  refine ⟨?_, ?_, ?_, ?_⟩
  · intro hi
    simp only [on_epoch_end, hs, hi, Bool.not_true, Bool.false_eq_true, if_false]
    split <;> rfl
  · intro hi
    simp only [on_epoch_end, hs, hi, Bool.not_false, if_true]
    split <;> rfl
  · intro q hq
    cases hl : cfg.lower_is_better <;>
      simp [is_score_improved, hl, hq, scoreLtThr, scoreGtThr]
  · intro hq
    cases hl : cfg.lower_is_better <;>
      simp [is_score_improved, hl, hq, scoreLtThr, scoreGtThr]

/-- Witness for `misses_step_and_strict_improvement`: the non-improving score 5
(threshold 0, lower is better) bumps the counter from 1 to 2. -/
theorem misses_step_and_strict_improvement_witness :
    (on_epoch_end cfgAbs stOneMiss recFive true true).1.misses_ = stOneMiss.misses_ + 1 :=
  (misses_step_and_strict_improvement cfgAbs stOneMiss recFive true true 5 rfl).2.1
    (by decide)

/-- C3 counterexample: with the valid configuration `threshold=1`,
`threshold_mode='rel'`, `lower_is_better=True`, the improving scores 1 and 2 —
different magnitudes — both produce the same new dynamic threshold 0
(`s - 1*s = 0`), contradicting "two improving scores of different magnitude
... produce different thresholds in relative mode". -/
theorem rel_thresholds_can_coincide_cex :
    (on_epoch_end cfgRelOne stFresh [("valid_loss", 1)] true true).1.dynamic_threshold_ =
      ExtQ.fin 0 ∧
    (on_epoch_end cfgRelOne stFresh [("valid_loss", 2)] true true).1.dynamic_threshold_ =
      ExtQ.fin 0 ∧
    (1 : ℚ) ≠ 2 := by
  refine ⟨?_, ?_, by norm_num⟩ <;>
    simp [on_epoch_end, cfgRelOne, stFresh, is_score_improved, scoreLtThr,
      calc_new_threshold, List.lookup]

/-- C3 (amended): on an improving epoch the new dynamic threshold is
`score - delta` (`lower_is_better`) or `score + delta`, with
`delta = threshold * score` in `'rel'` mode and `delta = threshold` in `'abs'`
mode.  Consequently, two improving scores of different magnitude produce
different thresholds in relative mode *provided the multiplier is nonzero*
(for non-negative `threshold` this only excludes `threshold = 1` in the
`lower_is_better` direction), and in absolute mode the offset
`newThreshold - score` is the same constant regardless of score magnitude. -/
theorem threshold_update_formula_amended :
    (∀ (cfg : ESConfig) (st : ESState) (rec : List (String × ℚ)) (v p : Bool) (s : ℚ),
      List.lookup cfg.monitor rec = some s → is_score_improved cfg st s = true →
      (on_epoch_end cfg st rec v p).1.dynamic_threshold_ =
        ExtQ.fin (if cfg.lower_is_better
          then s - (if cfg.threshold_mode = "rel" then cfg.threshold * s else cfg.threshold)
          else s + (if cfg.threshold_mode = "rel" then cfg.threshold * s else cfg.threshold))) ∧
    (∀ (cfg : ESConfig) (s₁ s₂ : ℚ), cfg.threshold_mode = "rel" → 0 ≤ cfg.threshold →
      (cfg.lower_is_better = true → cfg.threshold ≠ 1) → |s₁| ≠ |s₂| →
      calc_new_threshold cfg s₁ ≠ calc_new_threshold cfg s₂) ∧
    (∀ (cfg : ESConfig) (s₁ s₂ : ℚ), cfg.threshold_mode = "abs" →
      calc_new_threshold cfg s₁ - s₁ = calc_new_threshold cfg s₂ - s₂) := by
  refine ⟨?_, ?_, ?_⟩
  · intro cfg st rec v p s hs hi
    simp only [on_epoch_end, hs, hi, Bool.not_true, Bool.false_eq_true, if_false]
    split <;> simp [calc_new_threshold]
  · intro cfg s₁ s₂ hrel ht hne hmag heq
    have hs : s₁ ≠ s₂ := fun h => hmag (by rw [h])
    cases hl : cfg.lower_is_better with
    | true =>
      have h1 : cfg.threshold ≠ 1 := hne hl
      have hmul : (1 : ℚ) - cfg.threshold ≠ 0 := by
        intro h
        exact h1 (by linarith)
      apply hs
      have h2 : s₁ * (1 - cfg.threshold) = s₂ * (1 - cfg.threshold) := by
        simp [calc_new_threshold, hrel, hl] at heq
        ring_nf
        ring_nf at heq
        linarith
      exact mul_right_cancel₀ hmul h2
    | false =>
      have hmul : (1 : ℚ) + cfg.threshold ≠ 0 := by positivity
      apply hs
      have h2 : s₁ * (1 + cfg.threshold) = s₂ * (1 + cfg.threshold) := by
        simp [calc_new_threshold, hrel, hl] at heq
        ring_nf
        ring_nf at heq
        linarith
      exact mul_right_cancel₀ hmul h2
  · intro cfg s₁ s₂ habs
    have hrel : cfg.threshold_mode ≠ "rel" := by simp [habs]
    cases hl : cfg.lower_is_better <;> simp [calc_new_threshold, hrel, hl]

/-- Witness for `threshold_update_formula_amended`: with `threshold=0` in
`'abs'` mode, an improving score of 5 recenters the threshold to 5; with
relative threshold 1/2 the scores 1 and 2 give different thresholds; in
absolute mode the offsets agree. -/
theorem threshold_update_formula_amended_witness :
    (on_epoch_end cfgAbs stFresh recFive true true).1.dynamic_threshold_ =
      ExtQ.fin (5 - 0) ∧
    calc_new_threshold
        { monitor := "valid_loss", patience := 5, threshold := 1/2
          threshold_mode := "rel", lower_is_better := true } 1 ≠
      calc_new_threshold
        { monitor := "valid_loss", patience := 5, threshold := 1/2
          threshold_mode := "rel", lower_is_better := true } 2 ∧
    calc_new_threshold cfgAbs 1 - 1 = calc_new_threshold cfgAbs 2 - 2 := by
  refine ⟨?_, ?_, ?_⟩
  · exact threshold_update_formula_amended.1 cfgAbs stFresh recFive true true 5 rfl
      (by decide)
  · exact threshold_update_formula_amended.2.1 _ 1 2 rfl (by norm_num)
      (fun _ => by norm_num) (by norm_num)
  · exact threshold_update_formula_amended.2.2 cfgAbs 1 2 rfl

/-- C8 counterexample: with a non-verbose host (`net.verbose` falsy) the stop
signal is raised but no message is sent to the sink — the emission is guarded
by `if net.verbose:` — contradicting "for every configuration of the host and
sink". -/
theorem stop_without_sink_message_cex :
    (on_epoch_end cfgAbs stOneMiss recFive false true).2.1 = ESOutcome.keyboardInterrupt ∧
    (on_epoch_end cfgAbs stOneMiss recFive false true).2.2 = none := by
  constructor <;>
    simp [on_epoch_end, cfgAbs, stOneMiss, recFive, is_score_improved, scoreLtThr,
      List.lookup]

/-- C8 (amended): whenever `EarlyStopping` raises the stop signal *and the
host's `net.verbose` flag is truthy*, a human-readable message is sent through
the injected sink regardless of which sink is injected; with a falsy
`net.verbose` no message is ever emitted. -/
theorem stop_message_iff_verbose (cfg : ESConfig) (st : ESState)
    (rec : List (String × ℚ)) (p : Bool) :
    ((on_epoch_end cfg st rec true p).2.1 = ESOutcome.keyboardInterrupt →
      ((on_epoch_end cfg st rec true p).2.2).isSome = true) ∧
    ((on_epoch_end cfg st rec false p).2.2 = none) := by
  have hcast : (((st.misses_ + 1 : Nat)) : Int) = (st.misses_ : Int) + 1 := by
    push_cast
    ring
  have key : ∀ v' : Bool, (on_epoch_end cfg st rec v' p).2.2 =
      (if (on_epoch_end cfg st rec v' p).2.1 = ESOutcome.keyboardInterrupt ∧ v' = true
       then some (stopMessage cfg) else none) := by
    intro v'
    cases hl : List.lookup cfg.monitor rec with
    | none => simp [on_epoch_end, hl]
    | some s =>
      cases hi : is_score_improved cfg st s with
      | false =>
        by_cases hp : (st.misses_ : Int) + 1 = cfg.patience
        · cases v' <;> simp [on_epoch_end, hl, hi, hcast, hp]
        · cases v' <;> simp [on_epoch_end, hl, hi, hcast, hp]
      | true =>
        by_cases hp : (0 : Int) = cfg.patience
        · cases v' <;> simp [on_epoch_end, hl, hi, hp]
        · cases v' <;> simp [on_epoch_end, hl, hi, hp]
  constructor
  · intro hstop
    rw [key true]
    simp [hstop]
  · rw [key false]
    simp

/-- Witness for `stop_message_iff_verbose`: the stop in the concrete scenario
of `stop_signal_iff_misses_reach_patience_witness` with a verbose host does
emit a sink message. -/
theorem stop_message_iff_verbose_witness :
    ((on_epoch_end cfgAbs stOneMiss recFive true true).2.2).isSome = true :=
  (stop_message_iff_verbose cfgAbs stOneMiss recFive true).1 (by decide)

/-- Invariant of the early-stopping loop: starting below `patience`, after any
sequence of epochs the miss counter is below `patience` whenever the run ended
normally, and equals `patience` only if the last call raised the stop signal. -/
lemma runES_misses_below_patience (cfg : ESConfig) (v p : Bool)
    (hpat : 1 ≤ cfg.patience) :
    ∀ (recs : List (List (String × ℚ))) (st : ESState),
      (st.misses_ : Int) < cfg.patience →
      (((runES cfg v p st recs).2 = ESOutcome.ok →
        ((runES cfg v p st recs).1.misses_ : Int) < cfg.patience) ∧
       (((runES cfg v p st recs).1.misses_ : Int) = cfg.patience →
        (runES cfg v p st recs).2 = ESOutcome.keyboardInterrupt)) := by
  intro recs
  induction recs with
  | nil =>
    intro st h
    constructor
    · intro _
      simpa [runES] using h
    · intro heq
      simp only [runES] at heq
      omega
  | cons r rs ih =>
    intro st h
    cases hl : List.lookup cfg.monitor r with
    | none =>
      simp only [runES, on_epoch_end, hl]
      exact ⟨fun hok => by simp at hok, fun heq => by omega⟩
    | some s =>
      cases hi : is_score_improved cfg st s with
      | false =>
        by_cases hp : ((st.misses_ + 1 : Nat) : Int) = cfg.patience
        · simp [runES, on_epoch_end, hl, hi, hp]
        · simp only [runES, on_epoch_end, hl, hi, Bool.not_false, if_true, if_neg hp]
          exact ih { st with misses_ := st.misses_ + 1 } (by push_cast at hp ⊢; omega)
      | true =>
        have hp : ¬ (((0 : Nat) : Int) = cfg.patience) := by
          push_cast
          omega
        simp only [runES, on_epoch_end, hl, hi, Bool.not_true, Bool.false_eq_true,
          if_false, if_neg hp]
        exact ih { misses_ := 0
                   dynamic_threshold_ := ExtQ.fin (calc_new_threshold cfg s) }
          (by push_cast; omega)

/-- C10: for `patience >= 1`, starting from the state established by
`on_train_begin` (`misses_ = 0`), after every sequence of `on_epoch_end`
calls that returned normally the invariant `misses_ < patience` holds, and
`misses_` equals `patience` only at the instant the stop signal is raised
(the last call of the run raised `KeyboardInterrupt`). -/
theorem misses_invariant_below_patience (cfg : ESConfig) (v p : Bool)
    (st0 : ESState) (recs : List (List (String × ℚ)))
    (hpat : 1 ≤ cfg.patience) (h0 : on_train_begin cfg = Except.ok st0) :
    ((runES cfg v p st0 recs).2 = ESOutcome.ok →
      ((runES cfg v p st0 recs).1.misses_ : Int) < cfg.patience) ∧
    (((runES cfg v p st0 recs).1.misses_ : Int) = cfg.patience →
      (runES cfg v p st0 recs).2 = ESOutcome.keyboardInterrupt) := by
  have hm : st0.misses_ = 0 := by
    simp only [on_train_begin] at h0
    split at h0
    · exact absurd h0 (by simp)
    · cases h0
      rfl
  exact runES_misses_below_patience cfg v p hpat recs st0 (by rw [hm]; omega)

/-- Witness for `misses_invariant_below_patience`: the spec scenario — scores
1/2, 3/5, 7/10 with `patience=2`, lower is better — ends with `misses_ = 2`
and the stop signal raised after the third epoch. -/
theorem misses_invariant_below_patience_witness :
    (runES cfgAbs true true stFresh
      [[("valid_loss", 1/2)], [("valid_loss", 3/5)], [("valid_loss", 7/10)]]).2 =
      ESOutcome.keyboardInterrupt := by
  apply (misses_invariant_below_patience cfgAbs true true stFresh
    [[("valid_loss", 1/2)], [("valid_loss", 3/5)], [("valid_loss", 7/10)]]
    (by decide) rfl).2
  norm_num [runES, on_epoch_end, cfgAbs, stFresh, is_score_improved, scoreLtThr,
    calc_new_threshold, List.lookup]

/-- Reading an index after an in-place update: only the updated index changes. -/
lemma listModify_getElem {α : Type} (f : α → α) :
    ∀ (l : List α) (j i : Nat),
      (listModify l j f)[i]? = if i = j then (l[i]?).map f else l[i]? := by
  intro l
  induction l with
  | nil =>
    intro j i
    simp [listModify]
  | cons x xs ih =>
    intro j i
    cases j with
    | zero =>
      cases i with
      | zero => simp [listModify]
      | succ i => simp [listModify]
    | succ j =>
      cases i with
      | zero => simp [listModify]
      | succ i => simpa [listModify] using ih j i

/-- Folding in-place updates over a selection: the value at index `i` has the
map function applied once per occurrence of handle `i` in the selection. -/
lemma foldl_listModify_getElem {P : Type} (g : P → P) :
    ∀ (sel : List (String × Nat)) (store : List (String × P)) (i : Nat),
      (sel.foldl (fun s np => listModify s np.2 (fun nv => (nv.1, g nv.2))) store)[i]? =
        (store[i]?).map (fun nv => (nv.1, g^[sel.countP (fun np => np.2 == i)] nv.2)) := by
  intro sel
  induction sel with
  | nil =>
    intro store i
    simp only [List.foldl_nil, List.countP_nil, Function.iterate_zero]
    cases store[i]? with
    | none => rfl
    | some nv => rfl
  | cons np rest ih =>
    intro store i
    rw [List.foldl_cons, ih, listModify_getElem]
    by_cases h : i = np.2
    · subst h
      rw [if_pos rfl]
      simp [List.countP_cons, Option.map_map, Function.comp, Function.iterate_succ_apply]
      rfl
    · have hbeq : (np.2 == i) = false := by
        simpa using Ne.symm h
      simp [if_neg h, List.countP_cons, hbeq]

/-- Counting selected handles over `filter_parameters`: one filter pass per
pattern, counts added up. -/
lemma countP_filter_parameters {α : Type} (p : String × α → Bool) :
    ∀ (pats : List Pattern) (params : List (String × α)),
      (filter_parameters pats params).countP p =
        (pats.map (fun pat => params.countP (fun np => p np && patternFn pat np.1))).sum := by
  intro pats
  induction pats with
  | nil =>
    intro params
    simp [filter_parameters]
  | cons pat pats ih =>
    intro params
    simp [filter_parameters, List.countP_append, ih, List.countP_filter]

/-- In the handle enumeration, exactly one entry carries handle `i` (the `i`-th
parameter), so a count over the enumeration reduces to a test of that entry. -/
lemma countP_handlesFrom {P : Type} (r : String → Bool) (i : Nat) :
    ∀ (ps : List (String × P)) (k : Nat),
      (handlesFrom k ps).countP (fun np => np.2 == i && r np.1) =
        (if k ≤ i then ((ps[i - k]?).elim 0 (fun nv => if r nv.1 then 1 else 0)) else 0) := by
  intro ps
  induction ps with
  | nil =>
    intro k
    simp [handlesFrom]
  | cons nv ps ih =>
    intro k
    obtain ⟨n, v⟩ := nv
    simp only [handlesFrom, List.countP_cons, ih (k + 1)]
    rcases Nat.lt_trichotomy k i with hki | hki | hki
    · have h1 : (k == i) = false := by
        simpa using Nat.ne_of_lt hki
      have h2 : i - k = (i - (k + 1)) + 1 := by omega
      have h3 : k + 1 ≤ i := hki
      have h4 : k ≤ i := Nat.le_of_lt hki
      simp [h1, h2, h3, h4]
    · subst hki
      have h2 : ¬ (k + 1 ≤ k) := by omega
      simp [h2, Nat.sub_self]
    · have h1 : (k == i) = false := by
        simpa using Nat.ne_of_gt hki
      have h2 : ¬ (k ≤ i) := by omega
      have h3 : ¬ (k + 1 ≤ i) := by omega
      simp [h1, h2, h3]

/-- Sum of 0/1 indicators equals the length of the filtered list. -/
lemma sum_map_indicator {β : Type} (f : β → Bool) :
    ∀ (l : List β), (l.map (fun b => if f b then 1 else 0)).sum = (l.filter f).length := by
  intro l
  induction l with
  | nil => simp
  | cons b l ih => by_cases hb : f b <;> simp [hb, ih, List.filter_cons, Nat.add_comm]

/-- An in-place `noop` update changes nothing. -/
lemma listModify_pair_noop {α β : Type} :
    ∀ (l : List (α × β)) (i : Nat), listModify l i (fun nv => (nv.1, noop nv.2)) = l := by
  intro l
  induction l with
  | nil =>
    intro i
    rfl
  | cons x xs ih =>
    intro i
    cases i with
    | zero => simp [listModify, noop]
    | succ n => simp [listModify, ih]

/-- Folding `noop` updates over any selection changes nothing. -/
lemma foldl_listModify_noop {P : Type} :
    ∀ (sel : List (String × Nat)) (store : List (String × P)),
      sel.foldl (fun s np => listModify s np.2 (fun nv => (nv.1, noop nv.2))) store = store := by
  intro sel
  induction sel with
  | nil =>
    intro store
    rfl
  | cons np rest ih =>
    intro store
    rw [List.foldl_cons, listModify_pair_noop]
    exact ih store

/-- C2 (amended): `on_epoch_begin` applies the scheduled transformation to a
parameter once *per matching pattern*: the `i`-th parameter ends up with
`schedule(net)` applied `k` times where `k` is the number of patterns its name
matches.  In particular it is transformed at least once iff its name matches
at least one pattern (OR semantics), but a name matching several patterns is
transformed several times, not once. -/
theorem param_mapper_applies_once_per_matching_pattern {P : Type} (ipm : PMInit P)
    (net : PMNet P) (i : Nat) (nv : String × P) (h : net.params[i]? = some nv) :
    (on_epoch_begin ipm net)[i]? =
      some (nv.1, (ipm.schedule net)^[
        (ipm.patterns.filter (fun pat => patternFn pat nv.1)).length] nv.2) := by
  have hcount : ∀ pat : Pattern,
      (named_parameters net).countP (fun np => np.2 == i && patternFn pat np.1) =
        (if patternFn pat nv.1 then 1 else 0) := by
    intro pat
    rw [named_parameters, countP_handlesFrom (fun name => patternFn pat name) i net.params 0]
    simp [h]
  have hkey : (filter_parameters ipm.patterns (named_parameters net)).countP
      (fun np => np.2 == i) =
      (ipm.patterns.filter (fun pat => patternFn pat nv.1)).length := by
    rw [countP_filter_parameters]
    have hmap : ipm.patterns.map
        (fun pat => (named_parameters net).countP
          (fun np => np.2 == i && patternFn pat np.1)) =
        ipm.patterns.map (fun pat => if patternFn pat nv.1 then 1 else 0) :=
      List.map_congr_left (fun pat _ => hcount pat)
    rw [hmap, sum_map_indicator]
  simp only [on_epoch_begin]
  rw [foldl_listModify_getElem, hkey, h]
  rfl

/-- C2 counterexample: a parameter whose name matches two of the patterns has
the transformation applied twice, not once: with `fn` the increment function
and `at=1`, the parameter `"ab"` (value 0) matched by both `patA` and `patB`
ends at value 2 after `on_epoch_begin` of epoch 1, not 1. -/
theorem param_applied_per_pattern_not_once_cex :
    on_epoch_begin ipmDup netDup ≠ [("ab", (1 : ℚ))] ∧
    on_epoch_begin ipmDup netDup = [("ab", (2 : ℚ))] := by
  have h : on_epoch_begin ipmDup netDup = [("ab", (2 : ℚ))] := by
    simp [on_epoch_begin, ipmDup, netDup, named_parameters, handlesFrom,
      filter_parameters, patternFn, patA, patB, listModify, fnInc]
    norm_num
  refine ⟨?_, h⟩
  rw [h]
  norm_num

/-- Witness for `param_mapper_applies_once_per_matching_pattern`: in the
two-pattern scenario the parameter `"ab"` is incremented twice. -/
theorem param_mapper_applies_once_per_matching_pattern_witness :
    (on_epoch_begin ipmDup netDup)[0]? = some ("ab", (2 : ℚ)) := by
  have h := param_mapper_applies_once_per_matching_pattern ipmDup netDup 0
    ("ab", (0 : ℚ)) rfl
  rw [h]
  norm_num [ipmDup, netDup, patternFn, patA, patB, fnInc,
    Function.iterate_succ_apply, Function.iterate_zero_apply]

/-- C7: with no explicit schedule and an integer `at >= 1`, the default
schedule installed by `initialize` returns `fn` exactly on epoch-begin
invocations where the host's epoch counter (`len(net.history)`) equals `at`
and `noop` otherwise; consequently `on_epoch_begin` at any other epoch leaves
every parameter unchanged. -/
theorem default_schedule_fires_only_at {P : Type} (pats : PatternsArg) (f : P → P)
    (a : Int) (ipm : PMInit P) (ha : 1 ≤ a)
    (hinit : initMapper { patterns := pats, fn := f, at_ := AtArg.int a, schedule := none }
      = Except.ok ipm) :
    (∀ net : PMNet P, ipm.schedule net =
      if (net.historyLen : Int) = a then f else noop) ∧
    (∀ net : PMNet P, (net.historyLen : Int) ≠ a → on_epoch_begin ipm net = net.params) := by
  have hna : ¬ (a ≤ 0) := by omega
  have h := hinit
  simp [initMapper, hna] at h
  constructor
  · intro net
    rw [← h]
  · intro net hne
    have hsched : ipm.schedule net = noop := by
      rw [← h]
      simp [hne]
    simp only [on_epoch_begin, hsched]
    exact foldl_listModify_noop _ _

/-- Witness for `default_schedule_fires_only_at`: with `at=1`, at the beginning
of epoch 2 the matched parameter `"w"` is left unchanged. -/
theorem default_schedule_fires_only_at_witness :
    on_epoch_begin ipmAt1 netEpoch2 = netEpoch2.params :=
  (default_schedule_fires_only_at (PatternsArg.single patW) fnInc 1 ipmAt1
    (by decide) rfl).2 netEpoch2 (by decide)
